import Mathlib

/-!
# Verification of the Ethermint MsgEthereumTx core (x/evm/types/msg.go)

A shallow embedding of the transaction data model, the RLP wire encoding,
the EIP-155 signer, the signature verifier/recoverer with its cache, and
chain-id derivation, together with proofs of the spec's testable
properties.

Bytes are modelled as `Nat` (values < 256 in well-formed data), byte
strings as `List Nat`.  Go big.Int values read from byte strings via
SetBytes are modelled by `fromBE`; big.Int.Bytes (minimal big-endian)
by `minBE`.  Eth common.Hash ([32]byte) is a length-32 subtype.
The external secp256k1/keccak primitives are parameters (an `ECDSA`
structure), as the spec treats them as consumed collaborators; Go panics
are modelled as `Option.none`.
-/

namespace Ethermint

/-- Go `new(big.Int).SetBytes(l)` : big-endian value of a byte string. -/
def fromBE (l : List Nat) : Nat := l.foldl (fun a b => a * 256 + b) 0

/-- Fuel-driven worker for `minBE` (structural recursion so that the kernel
can evaluate it). -/
def minBEAux : Nat → Nat → List Nat
  | _, 0 => []
  | 0, _ + 1 => []
  | fuel + 1, n + 1 => minBEAux fuel ((n + 1) / 256) ++ [(n + 1) % 256]

/-- Go `big.Int.Bytes()` : minimal big-endian byte string (no leading zero). -/
def minBE (n : Nat) : List Nat := minBEAux n n

/-- Left-pad a number's minimal bytes to a 32-byte big-endian word.  Models
`copy(sig[32-len(r):32], r)` in `recoverEthSig` (the validation performed
before this point guarantees the value fits in 32 bytes). -/
def be32 (n : Nat) : List Nat := List.replicate (32 - (minBE n).length) 0 ++ minBE n

/-- Go `copy(addr[:], src)` into a zeroed 20-byte array: keep at most the
first 20 bytes of `src`, zero-fill the rest. -/
def padTrunc20 (l : List Nat) : List Nat := l.take 20 ++ List.replicate (20 - l.length) 0

/-- Go `ethcmn.BytesToAddress`: keep the last 20 bytes, left-pad with zeros
to exactly 20 bytes. -/
def bytesToAddress (bs : List Nat) : List Nat :=
  let b := if bs.length ≤ 20 then bs else bs.drop (bs.length - 20)
  List.replicate (20 - b.length) 0 ++ b

/-- RLP encoding of a byte string (go-ethereum `rlp` package): a single byte
below 0x80 is its own encoding; short strings get a one-byte 0x80+len
header; long strings get a 0xb7+lenlen header followed by the big-endian
length. -/
def rlpStr (bs : List Nat) : List Nat :=
  if bs.length = 1 ∧ bs.headI < 128 then bs
  else if bs.length ≤ 55 then (128 + bs.length) :: bs
  else (183 + (minBE bs.length).length) :: (minBE bs.length ++ bs)

/-- RLP list header wrapped around an already-encoded payload. -/
def rlpListWrap (p : List Nat) : List Nat :=
  if p.length ≤ 55 then (192 + p.length) :: p
  else (247 + (minBE p.length).length) :: (minBE p.length ++ p)

/-- One slot of a flat (list-free) RLP value: an unsigned integer
(uint64 or non-negative big.Int, encoded minimally) or a byte string. -/
inductive RLPFlat where
  | nat (n : Nat)
  | bytes (bs : List Nat)
deriving DecidableEq, Repr

/-- RLP encoding of one flat slot. -/
def encodeFlat : RLPFlat → List Nat
  | .nat n => rlpStr (minBE n)
  | .bytes bs => rlpStr bs

/-- RLP encoding of a flat list value (go-ethereum `rlp.Encode` applied to a
struct or tuple whose fields are integers and byte strings). -/
def encodeFlatList (items : List RLPFlat) : List Nat :=
  rlpListWrap (items.map encodeFlat).flatten

/-- Decode one RLP string item, returning its content bytes and the rest of
the input.  Rejects list items, non-canonical single-byte encodings and
non-minimal long-form lengths, as go-ethereum's `Stream.Kind` does. -/
def decodeStrItem (l : List Nat) : Option (List Nat × List Nat) :=
  match l with
  | [] => none
  | b :: rest =>
    if b < 128 then some ([b], rest)
    else if b ≤ 183 then
      let n := b - 128
      if n ≤ rest.length then
        if n = 1 ∧ rest.headI < 128 then none
        else some (rest.take n, rest.drop n)
      else none
    else if b ≤ 191 then
      let nn := b - 183
      if nn ≤ rest.length then
        if (rest.take nn).headI = 0 then none
        else
          let n := fromBE (rest.take nn)
          if n < 56 then none
          else if n ≤ (rest.drop nn).length then
            some ((rest.drop nn).take n, (rest.drop nn).drop n)
          else none
      else none
    else none

/-- Decode an RLP-encoded uint64 (go-ethereum `Stream.uint(64)`): a string
item of at most 8 bytes with no leading zero byte. -/
def decodeU64 (l : List Nat) : Option (Nat × List Nat) :=
  match decodeStrItem l with
  | none => none
  | some (content, rest) =>
    if content.length ≤ 8 then
      if content ≠ [] ∧ content.headI = 0 then none
      else some (fromBE content, rest)
    else none

/-- Decode an RLP list header, returning the list payload and the rest of
the input. -/
def decodeListPayload (l : List Nat) : Option (List Nat × List Nat) :=
  match l with
  | [] => none
  | b :: rest =>
    if b < 192 then none
    else if b ≤ 247 then
      let n := b - 192
      if n ≤ rest.length then some (rest.take n, rest.drop n) else none
    else
      let nn := b - 247
      if nn ≤ 8 then
        if nn ≤ rest.length then
          if (rest.take nn).headI = 0 then none
          else
            let n := fromBE (rest.take nn)
            if n < 56 then none
            else if n ≤ (rest.drop nn).length then
              some ((rest.drop nn).take n, (rest.drop nn).drop n)
            else none
        else none
      else none

/-- Modelled from the spec: the `TxData` struct declaration (a generated
file not present under src/).  §3 and §4.1 of the spec give the nine
fields and the wire order `(nonce, gasPrice, gasLimit, recipient, amount,
payload, V, R, S)`; integer-valued big fields are stored as minimal
big-endian byte strings, `AccountNonce` and `GasLimit` as uint64. -/
structure TxData where
  AccountNonce : Nat
  Price : List Nat
  GasLimit : Nat
  Recipient : List Nat
  Amount : List Nat
  Payload : List Nat
  V : List Nat
  R : List Nat
  S : List Nat
deriving DecidableEq, Repr

/-- Go `rlp.Encode(w, &msg.Data)`: the nine fields of `TxData` in
declaration order as one RLP list. -/
def encodeTxData (d : TxData) : List Nat :=
  encodeFlatList
    [.nat d.AccountNonce, .bytes d.Price, .nat d.GasLimit, .bytes d.Recipient,
     .bytes d.Amount, .bytes d.Payload, .bytes d.V, .bytes d.R, .bytes d.S]

/-- Go `s.Decode(&msg.Data)` (via `rlp.DecodeBytes` semantics): parse the
outer list, then the nine fields; reject trailing input, surplus list
elements, and non-minimal integers. -/
def decodeTxData (l : List Nat) : Option TxData :=
  (decodeListPayload l).bind fun (p, rest0) =>
  if rest0 = [] then
    (decodeU64 p).bind fun (nonce, p1) =>
    (decodeStrItem p1).bind fun (price, p2) =>
    (decodeU64 p2).bind fun (gasLimit, p3) =>
    (decodeStrItem p3).bind fun (recipient, p4) =>
    (decodeStrItem p4).bind fun (amount, p5) =>
    (decodeStrItem p5).bind fun (payload, p6) =>
    (decodeStrItem p6).bind fun (v, p7) =>
    (decodeStrItem p7).bind fun (r, p8) =>
    (decodeStrItem p8).bind fun (s, p9) =>
    if p9 = [] then some ⟨nonce, price, gasLimit, recipient, amount, payload, v, r, s⟩
    else none
  else none

/-- Eth `common.Hash`: a fixed 32-byte array.  `Bytes()` is `.val` and
always has length 32. -/
def EthHash := { l : List Nat // l.length = 32 }

instance : DecidableEq EthHash := fun a b =>
  decidable_of_iff (a.val = b.val) Subtype.ext_iff.symm

/-- The zero value of `common.Hash`. -/
def zeroHash : EthHash := ⟨List.replicate 32 0, by simp⟩

/-- Store a byte string into a fresh `common.Hash` (the keccak primitive
always produces exactly 32 bytes; truncate/zero-fill keeps this total). -/
def mkHash (l : List Nat) : EthHash :=
  ⟨l.take 32 ++ List.replicate (32 - l.length) 0, by
    simp only [List.length_append, List.length_take, List.length_replicate]
    omega⟩

/-- The signature cache (`SigCache{signer, from}`): the chain id of the
EIP-155 signer context used for a successful recovery, and the recovered
20-byte sender. -/
structure SigCache where
  signerChainId : Nat
  fromBytes : List Nat
deriving DecidableEq, Repr

/-- `MsgEthereumTx`: canonical `Data` plus the derived caches `size`,
`hash` and `from` (`from` is a Lean keyword, hence `from_`). -/
structure MsgEthereumTx where
  Data : TxData
  size : Option Nat := none
  hash : EthHash := zeroHash
  from_ : Option SigCache := none
deriving DecidableEq

/-- Go `newMsgEthereumTx`.  A `none` recipient makes `to.Bytes()`
dereference a nil `*common.Address`, a run-time panic — modelled as
`none`.  A nil `amount`/`gasPrice` leaves the empty byte string. -/
def newMsgEthereumTx (nonce : Nat) (toAddr : Option (List Nat)) (amount : Option Nat)
    (gasLimit : Nat) (gasPrice : Option Nat) (payload : List Nat) :
    Option MsgEthereumTx :=
  match toAddr with
  | none => none
  | some a =>
    some { Data :=
      { AccountNonce := nonce
        Price := match gasPrice with | none => [] | some p => minBE p
        GasLimit := gasLimit
        Recipient := a
        Amount := match amount with | none => [] | some m => minBE m
        Payload := payload
        V := [], R := [], S := [] } }

/-- Go `NewMsgEthereumTx`. -/
def NewMsgEthereumTx (nonce : Nat) (toAddr : Option (List Nat)) (amount : Option Nat)
    (gasLimit : Nat) (gasPrice : Option Nat) (payload : List Nat) :
    Option MsgEthereumTx :=
  newMsgEthereumTx nonce toAddr amount gasLimit gasPrice payload

/-- Go `NewMsgEthereumTxContract`: construction with no recipient. -/
def NewMsgEthereumTxContract (nonce : Nat) (amount : Option Nat) (gasLimit : Nat)
    (gasPrice : Option Nat) (payload : List Nat) : Option MsgEthereumTx :=
  newMsgEthereumTx nonce none amount gasLimit gasPrice payload

/-- The consumed cryptographic primitives (spec §6): secp256k1 ECDSA sign,
public-key recovery, the uncompressed public key of a private key, and the
256-bit keccak hash.  All byte-level. -/
structure ECDSA where
  sign : List Nat → Nat → List Nat
  ecrecover : List Nat → List Nat → Except String (List Nat)
  pubkey : Nat → List Nat
  keccak : List Nat → List Nat

/-- The secp256k1 group order N. -/
def secpN : Nat :=
  0xfffffffffffffffffffffffffffffffebaaedce6af48a03bbfd25e8cd0364141

/-- go-ethereum `secp256k1halfN = N >> 1`. -/
def halfN : Nat := secpN / 2

/-- go-ethereum `crypto.ValidateSignatureValues(v, r, s, homestead)`. -/
def validateSignatureValues (v r s : Nat) (homestead : Bool) : Bool :=
  if r < 1 ∨ s < 1 then false
  else if homestead = true ∧ halfN < s then false
  else decide (r < secpN) && decide (s < secpN) && (decide (v = 0) || decide (v = 1))

/-- Go `RLPSignBytes(chainID)`: keccak of the RLP encoding of the ordered
tuple `(nonce, gasPrice, gasLimit, recipient-as-Address, amount, payload,
chainID, uint(0), uint(0))`. -/
def RLPSignBytes (E : ECDSA) (msg : MsgEthereumTx) (chainID : Nat) : List Nat :=
  E.keccak (encodeFlatList
    [.nat msg.Data.AccountNonce,
     .nat (fromBE msg.Data.Price),
     .nat msg.Data.GasLimit,
     .bytes (bytesToAddress msg.Data.Recipient),
     .nat (fromBE msg.Data.Amount),
     .bytes msg.Data.Payload,
     .nat chainID,
     .nat 0,
     .nat 0])

/-- Go `EncodeRLP`: delegates to the RLP encoding of `msg.Data`. -/
def EncodeRLP (msg : MsgEthereumTx) : List Nat := encodeTxData msg.Data

/-- Go `DecodeRLP`: decodes into the receiver, replacing `Data` and setting
the `size` cache to the total encoded size. -/
def DecodeRLP (msg : MsgEthereumTx) (l : List Nat) : Option MsgEthereumTx :=
  (decodeTxData l).map fun d => { msg with Data := d, size := some l.length }

/-- Go `Hash()`: intends to memoize `rlpHash(msg)` but guards on
`len(msg.hash.Bytes()) == 0`, where `msg.hash` is a fixed 32-byte
`common.Hash`.  Returns the (possibly updated) hash and the new message
state. -/
def Hash (E : ECDSA) (msg : MsgEthereumTx) : List Nat × MsgEthereumTx :=
  if (msg.hash.val).length = 0 then
    let msg' := { msg with hash := mkHash (E.keccak (EncodeRLP msg)) }
    (msg'.hash.val, msg')
  else (msg.hash.val, msg)

/-- Go `byte(Vb.Uint64() - 27)`: `Uint64` takes the low 64 bits of the
absolute value, the subtraction wraps in uint64, the byte conversion
truncates mod 256. -/
def recByte (Vb : Int) : Nat := (Vb.natAbs % 2 ^ 64 + (2 ^ 64 - 27)) % 2 ^ 64 % 256

/-- Go `recoverEthSig(R, S, Vb, sigHash)`.  `Vb.BitLen() > 8` is written as
`256 ≤ Vb.natAbs`. -/
def recoverEthSig (E : ECDSA) (R S : Nat) (Vb : Int) (sigHash : List Nat) :
    Except String (List Nat) :=
  if 256 ≤ Vb.natAbs then .error "invalid signature"
  else
    let V := recByte Vb
    if validateSignatureValues V R S true = false then .error "invalid signature"
    else
      match E.ecrecover sigHash (be32 R ++ be32 S ++ [V]) with
      | .error e => .error e
      | .ok pub =>
        if pub.length = 0 ∨ pub.headI ≠ 4 then .error "invalid public key"
        else .ok (padTrunc20 ((E.keccak (pub.drop 1)).drop 12))

/-- The cache-miss path of `VerifySig`: the zero-chain-id guard, the
EIP-155 `V' = V - 2*chainID - 8` arithmetic, signature recovery, and the
cache update. -/
def verifySigCompute (E : ECDSA) (msg : MsgEthereumTx) (chainID : Nat) :
    Except String (List Nat) × MsgEthereumTx :=
  if chainID = 0 then (.error "chainID cannot be zero", msg)
  else
    let r := fromBE msg.Data.R
    let s := fromBE msg.Data.S
    let v := fromBE msg.Data.V
    let Vb : Int := (v : Int) - 2 * (chainID : Int) - 8
    let sigHash := RLPSignBytes E msg chainID
    match recoverEthSig E r s Vb sigHash with
    | .error e => (.error e, msg)
    | .ok sender => (.ok sender, { msg with from_ := some ⟨chainID, sender⟩ })

/-- Go `VerifySig(chainID)`: first consult the signature cache (keyed on
the EIP-155 signer's chain id), otherwise recover and cache. -/
def VerifySig (E : ECDSA) (msg : MsgEthereumTx) (chainID : Nat) :
    Except String (List Nat) × MsgEthereumTx :=
  match msg.from_ with
  | some cache =>
    if cache.signerChainId = chainID then (.ok (bytesToAddress cache.fromBytes), msg)
    else verifySigCompute E msg chainID
  | none => verifySigCompute E msg chainID

/-- Go `Sign(chainID, priv)` (EIP-155).  The two Go panics (primitive
failure, wrong-size signature) are modelled as `none`.  Byte additions
`sig[64] + 27` / `sig[64] + 35` wrap mod 256. -/
def Sign (E : ECDSA) (msg : MsgEthereumTx) (chainID : Nat) (priv : Nat) :
    Option MsgEthereumTx :=
  let txHash := RLPSignBytes E msg chainID
  let sig := E.sign txHash priv
  if sig.length = 65 then
    let r := fromBE (sig.take 32)
    let s := fromBE ((sig.drop 32).take 32)
    let recid := (sig.drop 64).headI
    let v := if chainID = 0 then (recid + 27) % 256 else (recid + 35) % 256 + 2 * chainID
    some { msg with Data := { msg.Data with V := minBE v, R := minBE r, S := minBE s } }
  else none

/-- Go `deriveChainID(v)`.  `v.BitLen() <= 64` is written as `v < 2^64`;
on that path the uint64 subtraction `v - 35` wraps mod 2^64. -/
def deriveChainID (v : Nat) : Nat :=
  if v < 2 ^ 64 then
    if v = 27 ∨ v = 28 then 0
    else (v + (2 ^ 64 - 35)) % 2 ^ 64 / 2
  else (v - 35) / 2

/-- Go `ChainID()`. -/
def ChainID (msg : MsgEthereumTx) : Nat := deriveChainID (fromBE msg.Data.V)

/-- The address derived from a private key's public key: the last 20 bytes
of the keccak hash of the 64 coordinate bytes (uncompressed prefix byte
excluded). -/
def addressOfPriv (E : ECDSA) (priv : Nat) : List Nat :=
  padTrunc20 ((E.keccak ((E.pubkey priv).drop 1)).drop 12)

/-- A valid secp256k1 keypair, as assumed of the consumed primitives: for
every message hash, `sign` yields a 65-byte canonical low-S signature with
recovery id 0 or 1 whose `ecrecover` returns the 65-byte uncompressed
public key (prefix byte 4) of the private key. -/
def GoodKeypair (E : ECDSA) (priv : Nat) : Prop :=
  (E.pubkey priv).length = 65 ∧ (E.pubkey priv).headI = 4 ∧
  ∀ h : List Nat,
    (E.sign h priv).length = 65 ∧
    1 ≤ fromBE ((E.sign h priv).take 32) ∧
    fromBE ((E.sign h priv).take 32) < secpN ∧
    1 ≤ fromBE (((E.sign h priv).drop 32).take 32) ∧
    fromBE (((E.sign h priv).drop 32).take 32) ≤ halfN ∧
    ((E.sign h priv).drop 64).headI ≤ 1 ∧
    E.ecrecover h
      (be32 (fromBE ((E.sign h priv).take 32)) ++
       be32 (fromBE (((E.sign h priv).drop 32).take 32)) ++
       [((E.sign h priv).drop 64).headI]) = .ok (E.pubkey priv)

/-- Follows the spec's words (§4.1): the signing payload is the ordered
9-tuple `(nonce, gasPrice, gasLimit, recipient, amount, payload, chainId,
0, 0)`, integers minimal, the recipient a 20-byte address slot. -/
def signingPayloadSpec (d : TxData) (chainId : Nat) : List RLPFlat :=
  [.nat d.AccountNonce, .nat (fromBE d.Price), .nat d.GasLimit,
   .bytes (bytesToAddress d.Recipient), .nat (fromBE d.Amount),
   .bytes d.Payload, .nat chainId, .nat 0, .nat 0]

/-- Well-formed transaction data: the uint64 fields fit in 64 bits and the
byte-string fields have bounded length (any realistic transaction). -/
def WFTx (d : TxData) : Prop :=
  d.AccountNonce < 2 ^ 64 ∧ d.GasLimit < 2 ^ 64 ∧
  d.Price.length ≤ 2 ^ 32 ∧ d.Recipient.length ≤ 2 ^ 32 ∧
  d.Amount.length ≤ 2 ^ 32 ∧ d.Payload.length ≤ 2 ^ 32 ∧
  d.V.length ≤ 2 ^ 32 ∧ d.R.length ≤ 2 ^ 32 ∧ d.S.length ≤ 2 ^ 32

instance (d : TxData) : Decidable (WFTx d) := by unfold WFTx; infer_instance

-- Concrete data for the witness theorems. ------------------------------

/-- A fixed 65-byte signature value (r = 1, s = 1, recovery id 0). -/
def sig0 : List Nat := be32 1 ++ be32 1 ++ [0]

/-- A fixed 65-byte uncompressed public key (prefix byte 4). -/
def pk0 : List Nat := 4 :: List.replicate 64 0

/-- A concrete instantiation of the cryptographic primitives used by the
witnesses: a constant signer consistent with its recoverer. -/
def E0 : ECDSA where
  sign := fun _ _ => sig0
  ecrecover := fun _ sg => if sg = sig0 then .ok pk0 else .error "no"
  pubkey := fun _ => pk0
  keccak := fun _ => List.replicate 32 0

/-- A concrete transaction data value. -/
def txData0 : TxData :=
  { AccountNonce := 7, Price := [1], GasLimit := 21000
    Recipient := List.replicate 20 0, Amount := [], Payload := [97, 98]
    V := [], R := [], S := [] }

/-- A freshly constructed concrete message. -/
def msg0 : MsgEthereumTx := { Data := txData0 }

/-- A concrete message carrying a populated signature cache for chain id 1. -/
def msgCached : MsgEthereumTx :=
  { Data := txData0, from_ := some ⟨1, List.replicate 20 7⟩ }

/-- A malformed wire encoding: the nonce slot holds the two-byte string
0x00 0x01, an integer with a leading zero byte. -/
def badNonceRLP : List Nat := [203, 130, 0, 1, 128, 128, 128, 128, 128, 128, 128, 128]

/-- The concrete message `msg0` signed with `E0` for chain id 1. -/
def msgSigned1 : MsgEthereumTx := (Sign E0 msg0 1 0).getD msg0

/-- A concrete transaction carrying a malleable (high-S) signature for
chain id 1: V = 37 (recovery id 0), R = 1, S = halfN + 1. -/
def msgHighS : MsgEthereumTx :=
  { Data := { txData0 with V := [37], R := [1], S := minBE (halfN + 1) } }

-- Theorems. -------------------------------------------------------------

theorem minBEAux_congr : ∀ n f₁ f₂ : Nat, n ≤ f₁ → n ≤ f₂ →
    minBEAux f₁ n = minBEAux f₂ n := by
  intro n
  induction n using Nat.strong_induction_on with
  | _ n ih =>
    intro f₁ f₂ h₁ h₂
    match n, f₁, f₂ with
    | 0, f₁, f₂ => cases f₁ <;> cases f₂ <;> rfl
    | m + 1, a + 1, b + 1 =>
      simp only [minBEAux]
      have hd : (m + 1) / 256 < m + 1 := Nat.div_lt_self (Nat.succ_pos m) (by norm_num)
      rw [ih ((m + 1) / 256) hd a b (by omega) (by omega)]

/-- Unfolding equation for `minBE`. -/
theorem minBE_eq (n : Nat) :
    minBE n = if n = 0 then [] else minBE (n / 256) ++ [n % 256] := by
  cases n with
  | zero => rfl
  | succ m =>
    have hd : (m + 1) / 256 < m + 1 := Nat.div_lt_self (Nat.succ_pos m) (by norm_num)
    rw [if_neg (Nat.succ_ne_zero m)]
    show minBEAux (m + 1) (m + 1) = minBE ((m + 1) / 256) ++ [(m + 1) % 256]
    simp only [minBEAux, minBE]
    rw [minBEAux_congr ((m + 1) / 256) m ((m + 1) / 256) (by omega) (by omega)]

theorem minBE_zero : minBE 0 = [] := rfl

theorem fromBE_nil : fromBE [] = 0 := rfl

theorem foldl_be (a : Nat) (l : List Nat) :
    l.foldl (fun x b => x * 256 + b) a =
      a * 256 ^ l.length + l.foldl (fun x b => x * 256 + b) 0 := by
  induction l generalizing a with
  | nil => simp
  | cons b t ih =>
    simp only [List.foldl_cons, List.length_cons]
    rw [ih (a * 256 + b), ih (0 * 256 + b)]
    ring

theorem fromBE_append (l₁ l₂ : List Nat) :
    fromBE (l₁ ++ l₂) = fromBE l₁ * 256 ^ l₂.length + fromBE l₂ := by
  simp only [fromBE, List.foldl_append]
  rw [foldl_be (List.foldl (fun x b => x * 256 + b) 0 l₁) l₂]

theorem fromBE_minBE (n : Nat) : fromBE (minBE n) = n := by
  induction n using Nat.strong_induction_on with
  | _ n ih =>
    rw [minBE_eq]
    by_cases h : n = 0
    · simp [h, fromBE_nil]
    · rw [if_neg h, fromBE_append,
        ih (n / 256) (Nat.div_lt_self (Nat.pos_of_ne_zero h) (by norm_num))]
      simp only [List.length_singleton, pow_one]
      show n / 256 * 256 + (0 * 256 + n % 256) = n
      omega

theorem minBE_eq_nil_iff (n : Nat) : minBE n = [] ↔ n = 0 := by
  constructor
  · intro h
    by_contra hn
    rw [minBE_eq, if_neg hn] at h
    simp at h
  · intro h; simp [h, minBE_zero]

theorem minBE_length_le : ∀ n k : Nat, n < 256 ^ k → (minBE n).length ≤ k := by
  intro n
  induction n using Nat.strong_induction_on with
  | _ n ih =>
    intro k h
    rw [minBE_eq]
    by_cases hn : n = 0
    · simp [hn]
    · rw [if_neg hn]
      match k with
      | 0 => rw [pow_zero] at h; exact absurd h (by omega)
      | k + 1 =>
        simp only [List.length_append, List.length_singleton]
        have hlt : n / 256 < 256 ^ k := by
          rw [Nat.div_lt_iff_lt_mul (by norm_num : 0 < 256)]
          calc n < 256 ^ (k + 1) := h
            _ = 256 ^ k * 256 := by ring
        have := ih (n / 256) (Nat.div_lt_self (Nat.pos_of_ne_zero hn) (by norm_num)) k hlt
        omega

/-- A nonzero number's minimal encoding starts with a nonzero byte. -/
theorem minBE_cons : ∀ n : Nat, n ≠ 0 → ∃ h t, minBE n = h :: t ∧ h ≠ 0 := by
  intro n
  induction n using Nat.strong_induction_on with
  | _ n ih =>
    intro hn
    rw [minBE_eq, if_neg hn]
    by_cases hq : n / 256 = 0
    · refine ⟨n % 256, [], ?_, ?_⟩
      · simp [hq, minBE_zero]
      · omega
    · obtain ⟨h, t, heq, hne⟩ :=
        ih (n / 256) (Nat.div_lt_self (Nat.pos_of_ne_zero hn) (by norm_num)) hq
      exact ⟨h, t ++ [n % 256], by rw [heq]; simp, hne⟩

theorem minBE_headI_ne_zero (n : Nat) (hn : n ≠ 0) : (minBE n).headI ≠ 0 := by
  obtain ⟨h, t, heq, hne⟩ := minBE_cons n hn
  simp [heq, hne]

theorem minBE_length_le_8 (n : Nat) (h : n < 2 ^ 64) : (minBE n).length ≤ 8 :=
  minBE_length_le n 8 (by norm_num at h ⊢; omega)

-- RLP encode/decode inverse lemmas. -------------------------------------

theorem decodeStrItem_rlpStr (bs rest : List Nat) (h : bs.length < 2 ^ 64) :
    decodeStrItem (rlpStr bs ++ rest) = some (bs, rest) := by
  rw [rlpStr]
  by_cases h1 : bs.length = 1 ∧ bs.headI < 128
  · obtain ⟨hlen, hhead⟩ := h1
    obtain ⟨b, rfl⟩ : ∃ b, bs = [b] := by
      match bs, hlen with
      | [b], _ => exact ⟨b, rfl⟩
    simp only [List.headI] at hhead
    simp [decodeStrItem, hhead]
  · rw [if_neg h1]
    by_cases hshort : bs.length ≤ 55
    · rw [if_pos hshort]
      have c1 : ¬ (128 + bs.length < 128) := by omega
      have c2 : 128 + bs.length ≤ 183 := by omega
      have c3 : 128 + bs.length - 128 = bs.length := by omega
      have c4 : bs.length ≤ (bs ++ rest).length := by simp
      have c5 : ¬ (bs.length = 1 ∧ (bs ++ rest).headI < 128) := by
        rintro ⟨he, hh⟩
        refine h1 ⟨he, ?_⟩
        obtain ⟨b, rfl⟩ : ∃ b, bs = [b] := by
          match bs, he with
          | [b], _ => exact ⟨b, rfl⟩
        simpa using hh
      simp only [List.cons_append, decodeStrItem, c3]
      rw [if_neg c1, if_pos c2, if_pos c4, if_neg c5]
      simp [List.take_left, List.drop_left]
    · rw [if_neg hshort]
      have hlen0 : bs.length ≠ 0 := by omega
      have hm1 : 1 ≤ (minBE bs.length).length := by
        rcases minBE_cons bs.length hlen0 with ⟨x, t, heq, -⟩
        simp [heq]
      have hm8 : (minBE bs.length).length ≤ 8 := minBE_length_le_8 _ h
      have c1 : ¬ (183 + (minBE bs.length).length < 128) := by omega
      have c2 : ¬ (183 + (minBE bs.length).length ≤ 183) := by omega
      have c3 : 183 + (minBE bs.length).length ≤ 191 := by omega
      have c4 : 183 + (minBE bs.length).length - 183 = (minBE bs.length).length := by omega
      simp only [List.cons_append, List.append_assoc, decodeStrItem, c4]
      rw [if_neg c1, if_neg c2, if_pos c3,
        if_pos (by simp : (minBE bs.length).length ≤ (minBE bs.length ++ (bs ++ rest)).length),
        List.take_left, List.drop_left]
      rw [if_neg (minBE_headI_ne_zero bs.length hlen0), fromBE_minBE]
      rw [if_neg (by omega : ¬ bs.length < 56),
        if_pos (by simp : bs.length ≤ (bs ++ rest).length),
        List.take_left, List.drop_left]

theorem decodeStrItem_rlpStr_nil (bs : List Nat) (h : bs.length < 2 ^ 64) :
    decodeStrItem (rlpStr bs) = some (bs, []) := by
  have := decodeStrItem_rlpStr bs [] h
  simpa using this

theorem decodeU64_rlpNat (n : Nat) (rest : List Nat) (h : n < 2 ^ 64) :
    decodeU64 (rlpStr (minBE n) ++ rest) = some (n, rest) := by
  have hlen : (minBE n).length < 2 ^ 64 :=
    lt_of_le_of_lt (minBE_length_le_8 n h) (by norm_num)
  simp only [decodeU64, decodeStrItem_rlpStr _ _ hlen]
  rw [if_pos (minBE_length_le_8 n h)]
  by_cases hn : n = 0
  · subst hn; simp [minBE_zero, fromBE_nil]
  · rw [if_neg ?_, fromBE_minBE]
    rintro ⟨-, hh⟩
    exact minBE_headI_ne_zero n hn hh

theorem decodeU64_rlpNat_nil (n : Nat) (h : n < 2 ^ 64) :
    decodeU64 (rlpStr (minBE n)) = some (n, []) := by
  have := decodeU64_rlpNat n [] h
  simpa using this

theorem decodeListPayload_wrap (p rest : List Nat) (h : p.length < 2 ^ 64) :
    decodeListPayload (rlpListWrap p ++ rest) = some (p, rest) := by
  rw [rlpListWrap]
  by_cases hshort : p.length ≤ 55
  · rw [if_pos hshort]
    have c1 : ¬ (192 + p.length < 192) := by omega
    have c2 : 192 + p.length ≤ 247 := by omega
    have c3 : 192 + p.length - 192 = p.length := by omega
    simp only [List.cons_append, decodeListPayload, c3]
    rw [if_neg c1, if_pos c2, if_pos (by simp : p.length ≤ (p ++ rest).length)]
    simp [List.take_left, List.drop_left]
  · rw [if_neg hshort]
    have hlen0 : p.length ≠ 0 := by omega
    have hm1 : 1 ≤ (minBE p.length).length := by
      rcases minBE_cons p.length hlen0 with ⟨x, t, heq, -⟩
      simp [heq]
    have hm8 : (minBE p.length).length ≤ 8 := minBE_length_le_8 _ h
    have c1 : ¬ (247 + (minBE p.length).length < 192) := by omega
    have c2 : ¬ (247 + (minBE p.length).length ≤ 247) := by omega
    have c4 : 247 + (minBE p.length).length - 247 = (minBE p.length).length := by omega
    simp only [List.cons_append, List.append_assoc, decodeListPayload, c4]
    rw [if_neg c1, if_neg c2, if_pos hm8,
      if_pos (by simp : (minBE p.length).length ≤ (minBE p.length ++ (p ++ rest)).length),
      List.take_left, List.drop_left]
    rw [if_neg (minBE_headI_ne_zero p.length hlen0), fromBE_minBE]
    rw [if_neg (by omega : ¬ p.length < 56),
      if_pos (by simp : p.length ≤ (p ++ rest).length),
      List.take_left, List.drop_left]

theorem decodeListPayload_wrap_nil (p : List Nat) (h : p.length < 2 ^ 64) :
    decodeListPayload (rlpListWrap p) = some (p, []) := by
  have := decodeListPayload_wrap p [] h
  simpa using this

theorem rlpStr_length_le (bs : List Nat) (h : bs.length < 2 ^ 64) :
    (rlpStr bs).length ≤ 9 + bs.length := by
  rw [rlpStr]
  by_cases h1 : bs.length = 1 ∧ bs.headI < 128
  · rw [if_pos h1]; omega
  · rw [if_neg h1]
    by_cases hshort : bs.length ≤ 55
    · rw [if_pos hshort]; simp only [List.length_cons]; omega
    · rw [if_neg hshort]
      have := minBE_length_le_8 bs.length h
      simp only [List.length_cons, List.length_append]
      omega

/-- The wire encoding written as the concatenation of the nine encoded
slots. -/
theorem encodeTxData_parts (d : TxData) :
    encodeTxData d = rlpListWrap
      (rlpStr (minBE d.AccountNonce) ++ (rlpStr d.Price ++ (rlpStr (minBE d.GasLimit) ++
       (rlpStr d.Recipient ++ (rlpStr d.Amount ++ (rlpStr d.Payload ++
       (rlpStr d.V ++ (rlpStr d.R ++ rlpStr d.S)))))))) := by
  simp [encodeTxData, encodeFlatList, encodeFlat]

/-- Decoding inverts encoding on well-formed transaction data. -/
theorem decodeTxData_encodeTxData (d : TxData) (h : WFTx d) :
    decodeTxData (encodeTxData d) = some d := by
  obtain ⟨h1, h2, h3, h4, h5, h6, h7, h8, h9⟩ := h
  have big : (2 : Nat) ^ 32 < 2 ^ 64 := by norm_num
  have l3 : d.Price.length < 2 ^ 64 := by omega
  have l4 : d.Recipient.length < 2 ^ 64 := by omega
  have l5 : d.Amount.length < 2 ^ 64 := by omega
  have l6 : d.Payload.length < 2 ^ 64 := by omega
  have l7 : d.V.length < 2 ^ 64 := by omega
  have l8 : d.R.length < 2 ^ 64 := by omega
  have l9 : d.S.length < 2 ^ 64 := by omega
  have m1 : (minBE d.AccountNonce).length ≤ 8 := minBE_length_le_8 _ h1
  have m2 : (minBE d.GasLimit).length ≤ 8 := minBE_length_le_8 _ h2
  have b1 := rlpStr_length_le (minBE d.AccountNonce) (by omega)
  have b2 := rlpStr_length_le (minBE d.GasLimit) (by omega)
  have b3 := rlpStr_length_le d.Price l3
  have b4 := rlpStr_length_le d.Recipient l4
  have b5 := rlpStr_length_le d.Amount l5
  have b6 := rlpStr_length_le d.Payload l6
  have b7 := rlpStr_length_le d.V l7
  have b8 := rlpStr_length_le d.R l8
  have b9 := rlpStr_length_le d.S l9
  have hP : (rlpStr (minBE d.AccountNonce) ++ (rlpStr d.Price ++ (rlpStr (minBE d.GasLimit) ++
       (rlpStr d.Recipient ++ (rlpStr d.Amount ++ (rlpStr d.Payload ++
       (rlpStr d.V ++ (rlpStr d.R ++ rlpStr d.S)))))))).length < 2 ^ 64 := by
    simp only [List.length_append]
    omega
  rw [encodeTxData_parts, decodeTxData, decodeListPayload_wrap_nil _ hP]
  simp only [Option.bind_eq_bind, Option.some_bind, if_pos rfl,
    decodeU64_rlpNat _ _ h1, decodeU64_rlpNat _ _ h2,
    decodeStrItem_rlpStr _ _ l3, decodeStrItem_rlpStr _ _ l4,
    decodeStrItem_rlpStr _ _ l5, decodeStrItem_rlpStr _ _ l6,
    decodeStrItem_rlpStr _ _ l7, decodeStrItem_rlpStr _ _ l8,
    decodeStrItem_rlpStr_nil _ l9]
  simp

-- Address and signature helper lemmas. ----------------------------------

theorem padTrunc20_length (l : List Nat) : (padTrunc20 l).length = 20 := by
  simp only [padTrunc20, List.length_append, List.length_take, List.length_replicate]
  omega

theorem bytesToAddress_of_len20 (l : List Nat) (h : l.length = 20) :
    bytesToAddress l = l := by
  simp [bytesToAddress, h]

theorem halfN_lt_secpN : halfN < secpN := by
  rw [halfN]
  exact Nat.div_lt_self (by rw [secpN]; norm_num) (by norm_num)

theorem validate_true (v r s : Nat) (hv : v = 0 ∨ v = 1) (hr1 : 1 ≤ r)
    (hrN : r < secpN) (hs1 : 1 ≤ s) (hsH : s ≤ halfN) :
    validateSignatureValues v r s true = true := by
  have hsN : s < secpN := lt_of_le_of_lt hsH halfN_lt_secpN
  rw [validateSignatureValues, if_neg (by omega), if_neg (by rintro ⟨-, hh⟩; omega)]
  rcases hv with h | h <;> simp [h, hrN, hsN]

theorem validate_false_of_highS (v r s : Nat) (hs : halfN < s) :
    validateSignatureValues v r s true = false := by
  rw [validateSignatureValues]
  by_cases h1 : r < 1 ∨ s < 1
  · rw [if_pos h1]
  · rw [if_neg h1, if_pos ⟨rfl, hs⟩]

/-- `recoverEthSig` rejects with "invalid signature" when V' does not fit a
byte or the canonical value check fails. -/
theorem recoverEthSig_invalid (E : ECDSA) (r s : Nat) (Vb : Int) (hsh : List Nat)
    (h : 256 ≤ Vb.natAbs ∨ validateSignatureValues (recByte Vb) r s true = false) :
    recoverEthSig E r s Vb hsh = .error "invalid signature" := by
  rw [recoverEthSig]
  by_cases hb : 256 ≤ Vb.natAbs
  · rw [if_pos hb]
  · rw [if_neg hb]
    rcases h with h | h
    · exact absurd h hb
    · rw [if_pos h]

/-- `recoverEthSig` on a canonical signature whose recovery succeeds. -/
theorem recoverEthSig_good (E : ECDSA) (r s rid : Nat) (Vb : Int) (hsh pub : List Nat)
    (hVb : Vb = (rid : Int) + 27) (hrid : rid ≤ 1)
    (hr1 : 1 ≤ r) (hrN : r < secpN) (hs1 : 1 ≤ s) (hsH : s ≤ halfN)
    (hrec : E.ecrecover hsh (be32 r ++ be32 s ++ [rid]) = .ok pub)
    (hpl : pub.length = 65) (hph : pub.headI = 4) :
    recoverEthSig E r s Vb hsh = .ok (padTrunc20 ((E.keccak (pub.drop 1)).drop 12)) := by
  subst hVb
  have hrb : recByte ((rid : Int) + 27) = rid := by
    rcases Nat.le_one_iff_eq_zero_or_eq_one.mp hrid with h | h <;> subst h <;> decide
  have hrec' : E.ecrecover hsh (be32 r ++ (be32 s ++ [rid])) = .ok pub := by
    rw [← List.append_assoc]; exact hrec
  have hne : pub ≠ [] := by
    intro hh; rw [hh] at hpl; simp at hpl
  rw [recoverEthSig, if_neg (by omega : ¬ 256 ≤ ((rid : Int) + 27).natAbs)]
  simp [hrb, validate_true rid r s (by omega) hr1 hrN hs1 hsH, hrec', hne, hph]

/-- Any address produced by `recoverEthSig` has exactly 20 bytes. -/
theorem recoverEthSig_ok_length (E : ECDSA) (r s : Nat) (Vb : Int) (hsh a : List Nat)
    (h : recoverEthSig E r s Vb hsh = .ok a) : a.length = 20 := by
  simp only [recoverEthSig] at h
  split at h
  · exact absurd h (by simp)
  · split at h
    · exact absurd h (by simp)
    · split at h
      next e heq => exact absurd h (by simp)
      next pub heq =>
        split at h
        · exact absurd h (by simp)
        · have := Except.ok.inj h
          rw [← this, padTrunc20_length]

/-- `RLPSignBytes` ignores the signature fields V, R, S. -/
theorem RLPSignBytes_setSig (E : ECDSA) (m : MsgEthereumTx) (v r s : List Nat) (c : Nat) :
    RLPSignBytes E { m with Data := { m.Data with V := v, R := r, S := s } } c =
      RLPSignBytes E m c := rfl

/-- Signing leaves the recovery cache untouched. -/
theorem Sign_from_eq (E : ECDSA) (m : MsgEthereumTx) (c p : Nat) (msg' : MsgEthereumTx)
    (hs : Sign E m c p = some msg') : msg'.from_ = m.from_ := by
  simp only [Sign] at hs
  by_cases hl : (E.sign (RLPSignBytes E m c) p).length = 65
  · rw [if_pos hl] at hs
    obtain rfl := Option.some.inj hs
    rfl
  · rw [if_neg hl] at hs; exact absurd hs (by simp)

/-- `VerifySig` answers from the cache when its signer context matches. -/
theorem VerifySig_hit (E : ECDSA) (m : MsgEthereumTx) (c : Nat) (k : SigCache)
    (hm : m.from_ = some k) (hk : k.signerChainId = c) :
    VerifySig E m c = (.ok (bytesToAddress k.fromBytes), m) := by
  simp [VerifySig, hm, hk]

/-- `VerifySig` falls through to the compute path when the cache is absent
or keyed to a different chain id. -/
theorem VerifySig_miss (E : ECDSA) (m : MsgEthereumTx) (c : Nat)
    (hcache : ∀ k, m.from_ = some k → k.signerChainId ≠ c) :
    VerifySig E m c = verifySigCompute E m c := by
  cases hm : m.from_ with
  | none => simp [VerifySig, hm]
  | some k => simp [VerifySig, hm, hcache k hm]

/-- The compute path of `VerifySig` at chain id zero. -/
theorem verifySigCompute_zero (E : ECDSA) (m : MsgEthereumTx) :
    verifySigCompute E m 0 = (.error "chainID cannot be zero", m) := by
  simp [verifySigCompute]

/-- The first component of the compute path depends only on the canonical
transaction data. -/
theorem verifySigCompute_fst_congr (E : ECDSA) (m₁ m₂ : MsgEthereumTx) (c : Nat)
    (hd : m₁.Data = m₂.Data) :
    (verifySigCompute E m₁ c).1 = (verifySigCompute E m₂ c).1 := by
  by_cases h0 : c = 0
  · subst h0; rw [verifySigCompute_zero, verifySigCompute_zero]
  · have hh : RLPSignBytes E m₁ c = RLPSignBytes E m₂ c := by
      rw [RLPSignBytes, RLPSignBytes, hd]
    simp only [verifySigCompute, hd, hh]
    rw [if_neg h0, if_neg h0]
    cases recoverEthSig E (fromBE m₂.Data.R) (fromBE m₂.Data.S)
      ((fromBE m₂.Data.V : Int) - 2 * (c : Int) - 8) (RLPSignBytes E m₂ c) <;> rfl

/-- A successful compute path caches `(chainId, sender)` and the sender is
a 20-byte address. -/
theorem verifySigCompute_ok (E : ECDSA) (m : MsgEthereumTx) (c : Nat) (a : List Nat)
    (h : (verifySigCompute E m c).1 = .ok a) :
    (verifySigCompute E m c).2 = { m with from_ := some ⟨c, a⟩ } ∧ a.length = 20 := by
  by_cases h0 : c = 0
  · subst h0; rw [verifySigCompute_zero] at h; exact absurd h (by simp)
  · simp only [verifySigCompute] at h ⊢
    rw [if_neg h0] at h ⊢
    cases hrec : recoverEthSig E (fromBE m.Data.R) (fromBE m.Data.S)
        ((fromBE m.Data.V : Int) - 2 * (c : Int) - 8) (RLPSignBytes E m c) with
    | error e => rw [hrec] at h; exact absurd h (by simp)
    | ok sender =>
      rw [hrec] at h
      obtain rfl := Except.ok.inj h
      exact ⟨rfl, recoverEthSig_ok_length _ _ _ _ _ _ hrec⟩

/-- After any successful `VerifySig`, the state carries a cache entry for
the requested chain id whose `BytesToAddress` image is the returned
address, and the canonical data is unchanged. -/
theorem VerifySig_ok_after (E : ECDSA) (m : MsgEthereumTx) (c : Nat) (addr : List Nat)
    (h : (VerifySig E m c).1 = .ok addr) :
    ∃ b, (VerifySig E m c).2.from_ = some ⟨c, b⟩ ∧ bytesToAddress b = addr ∧
      (VerifySig E m c).2.Data = m.Data := by
  cases hm : m.from_ with
  | some k =>
    obtain ⟨kc, kb⟩ := k
    by_cases hk : kc = c
    · rw [hk] at hm
      have hhit1 : (VerifySig E m c).1 = .ok (bytesToAddress kb) := by
        simp [VerifySig, hm]
      have hhit2 : (VerifySig E m c).2 = m := by
        simp [VerifySig, hm]
      rw [hhit1] at h
      exact ⟨kb, by rw [hhit2, hm], Except.ok.inj h, by rw [hhit2]⟩
    · have hmiss : VerifySig E m c = verifySigCompute E m c := by
        simp [VerifySig, hm, hk]
      rw [hmiss] at h ⊢
      obtain ⟨h2, hlen⟩ := verifySigCompute_ok E m c addr h
      exact ⟨addr, by rw [h2], bytesToAddress_of_len20 addr hlen, by rw [h2]⟩
  | none =>
    have hmiss : VerifySig E m c = verifySigCompute E m c := by
      simp [VerifySig, hm]
    rw [hmiss] at h ⊢
    obtain ⟨h2, hlen⟩ := verifySigCompute_ok E m c addr h
    exact ⟨addr, by rw [h2], bytesToAddress_of_len20 addr hlen, by rw [h2]⟩

-- Chain-id derivation lemmas. --------------------------------------------

theorem deriveChainID_unprotected (rid : Nat) (hrid : rid ≤ 1) :
    deriveChainID (rid + 27) = 0 := by
  rw [deriveChainID, if_pos (by omega), if_pos (by omega)]

theorem deriveChainID_signed (rid c : Nat) (hrid : rid ≤ 1) (hc : 0 < c)
    (hbound : 2 * c + 36 < 2 ^ 64) :
    deriveChainID (rid + 35 + 2 * c) = c := by
  rw [deriveChainID, if_pos (by omega), if_neg (by omega)]
  have he : rid + 35 + 2 * c + (2 ^ 64 - 35) = rid + 2 * c + 2 ^ 64 := by omega
  rw [he, Nat.add_mod_right, Nat.mod_eq_of_lt (by omega)]
  omega

/-- The concrete primitives `E0` with private key 0 form a valid keypair. -/
theorem goodKeypair_E0 : GoodKeypair E0 0 := by
  refine ⟨by decide, by decide, fun h => ?_⟩
  show sig0.length = 65 ∧ 1 ≤ fromBE (sig0.take 32) ∧ fromBE (sig0.take 32) < secpN ∧
      1 ≤ fromBE ((sig0.drop 32).take 32) ∧ fromBE ((sig0.drop 32).take 32) ≤ halfN ∧
      (sig0.drop 64).headI ≤ 1 ∧
      E0.ecrecover h (be32 (fromBE (sig0.take 32)) ++
        be32 (fromBE ((sig0.drop 32).take 32)) ++ [(sig0.drop 64).headI]) = .ok pk0
  exact ⟨by decide, by decide, by decide, by decide, by decide, by decide, rfl⟩

/-- Recovery after signing, stated on the abstract parsed signature
components. -/
theorem verify_of_signed (E : ECDSA) (msg msg' : MsgEthereumTx) (c : Nat)
    (r s rid : Nat) (pub : List Nat) (hc0 : ¬ (c = 0))
    (hfrom : msg'.from_ = none)
    (hV : msg'.Data.V = minBE ((rid + 35) % 256 + 2 * c))
    (hR : msg'.Data.R = minBE r) (hS : msg'.Data.S = minBE s)
    (hsb : RLPSignBytes E msg' c = RLPSignBytes E msg c)
    (hrid : rid ≤ 1) (hr1 : 1 ≤ r) (hrN : r < secpN) (hs1 : 1 ≤ s) (hsH : s ≤ halfN)
    (hrec : E.ecrecover (RLPSignBytes E msg c) (be32 r ++ be32 s ++ [rid]) = .ok pub)
    (hpl : pub.length = 65) (hph : pub.headI = 4) :
    (VerifySig E msg' c).1 = .ok (padTrunc20 ((E.keccak (pub.drop 1)).drop 12)) := by
  rw [VerifySig_miss E msg' c (by intro k hk; rw [hfrom] at hk; cases hk)]
  simp only [verifySigCompute]
  rw [if_neg hc0, hV, hR, hS, hsb, fromBE_minBE, fromBE_minBE, fromBE_minBE]
  have hvb : ((((rid + 35) % 256 + 2 * c : Nat) : Int) - 2 * (c : Int) - 8) =
      (rid : Int) + 27 := by
    rw [Nat.mod_eq_of_lt (by omega : rid + 35 < 256)]
    push_cast; ring
  rw [recoverEthSig_good E r s rid _ _ _ hvb hrid hr1 hrN hs1 hsH hrec hpl hph]

-- Claim theorems. --------------------------------------------------------

/-- C1: for every transaction with a fresh cache, chain id c > 0 and valid
secp256k1 keypair, `VerifySig c` after `Sign c priv` succeeds and returns
exactly the 20-byte address derived from the private key's public key. -/
theorem sign_then_verify_recovers (E : ECDSA) (msg msg' : MsgEthereumTx) (c priv : Nat)
    (hg : GoodKeypair E priv) (hc : 0 < c) (hf : msg.from_ = none)
    (hs : Sign E msg c priv = some msg') :
    (VerifySig E msg' c).1 = .ok (addressOfPriv E priv) ∧
      (addressOfPriv E priv).length = 20 := by
  have hc0 : ¬ (c = 0) := by omega
  obtain ⟨hpl, hph, hall⟩ := hg
  obtain ⟨hlen, hr1, hrN, hs1, hsH, hrid, hrec⟩ := hall (RLPSignBytes E msg c)
  refine ⟨?_, padTrunc20_length _⟩
  simp only [Sign] at hs
  rw [if_pos hlen, if_neg hc0] at hs
  replace hs := Option.some.inj hs
  exact verify_of_signed E msg msg' c
    (fromBE ((E.sign (RLPSignBytes E msg c) priv).take 32))
    (fromBE (((E.sign (RLPSignBytes E msg c) priv).drop 32).take 32))
    (((E.sign (RLPSignBytes E msg c) priv).drop 64).headI)
    (E.pubkey priv) hc0
    (by rw [← hs]; exact hf) (by rw [← hs]) (by rw [← hs]) (by rw [← hs])
    (by rw [← hs]; rfl) hrid hr1 hrN hs1 hsH hrec hpl hph

/-- C2: `Hash()` never computes anything: its memoization guard
`len(msg.hash.Bytes()) == 0` is always false because `common.Hash` is a
fixed 32-byte array, so the stored (initially all-zero) hash is returned
unchanged on every call, for every transaction and every hash primitive. -/
theorem hash_never_recomputes :
    (∀ (E : ECDSA) (msg : MsgEthereumTx), Hash E msg = (msg.hash.val, msg)) ∧
      Hash E0 msg0 = (List.replicate 32 0, msg0) := by
  constructor
  · intro E msg
    have hp := msg.hash.property
    rw [Hash, if_neg (by omega)]
  · rfl

/-- C3: constructing a contract-creation transaction (no recipient) always
fails: `newMsgEthereumTx` dereferences the nil recipient pointer
(`to.Bytes()`), a run-time panic, modelled as `none`. -/
theorem contract_creation_constructor_fails :
    ∀ (nonce : Nat) (amount : Option Nat) (gasLimit : Nat) (gasPrice : Option Nat)
      (payload : List Nat),
      NewMsgEthereumTxContract nonce amount gasLimit gasPrice payload = none ∧
        newMsgEthereumTx nonce none amount gasLimit gasPrice payload = none := by
  intro _ _ _ _ _
  exact ⟨rfl, rfl⟩

/-- C4: `ChainID()` after `Sign(chainId, key)` returns exactly chainId for
chainId in {0, 1, 5, 2^40 + 7}; `deriveChainID` maps V = 27 and V = 28 to
zero and inverts the signer's V encoding otherwise. -/
theorem chain_id_roundtrip (E : ECDSA) (msg msg' : MsgEthereumTx) (c priv : Nat)
    (hg : GoodKeypair E priv)
    (hc : c = 0 ∨ c = 1 ∨ c = 5 ∨ c = 2 ^ 40 + 7)
    (hs : Sign E msg c priv = some msg') :
    deriveChainID 27 = 0 ∧ deriveChainID 28 = 0 ∧ ChainID msg' = c := by
  refine ⟨by decide, by decide, ?_⟩
  obtain ⟨hpl, hph, hall⟩ := hg
  obtain ⟨hlen, -, -, -, -, hrid, -⟩ := hall (RLPSignBytes E msg c)
  have hrid' : ((E.sign (RLPSignBytes E msg c) priv).drop 64).headI ≤ 1 := hrid
  generalize hrecid : ((E.sign (RLPSignBytes E msg c) priv).drop 64).headI = recid at hrid'
  simp only [Sign] at hs
  rw [if_pos hlen, hrecid] at hs
  replace hs := Option.some.inj hs
  have hV : msg'.Data.V =
      minBE (if c = 0 then (recid + 27) % 256 else (recid + 35) % 256 + 2 * c) := by
    rw [← hs]
  clear hrid
  rw [ChainID, hV, fromBE_minBE]
  rcases hc with rfl | rfl | rfl | rfl
  · rw [if_pos rfl, Nat.mod_eq_of_lt (by omega)]
    exact deriveChainID_unprotected recid hrid'
  · rw [if_neg (by omega), Nat.mod_eq_of_lt (by omega)]
    exact deriveChainID_signed recid 1 hrid' (by omega) (by norm_num)
  · rw [if_neg (by omega), Nat.mod_eq_of_lt (by omega)]
    exact deriveChainID_signed recid 5 hrid' (by omega) (by norm_num)
  · rw [if_neg (by omega), Nat.mod_eq_of_lt (by omega)]
    exact deriveChainID_signed recid (2 ^ 40 + 7) hrid' (by omega) (by norm_num)

/-- C5: `VerifySig(0)` refuses recovery with the invalid-chain-id error on
every transaction whose cache was produced by this API (the cache is only
ever written for a nonzero chain id), in particular after `Sign(0, key)`. -/
theorem zero_chain_id_refused (E : ECDSA) (msg : MsgEthereumTx) (priv : Nat)
    (hcache : ∀ k, msg.from_ = some k → k.signerChainId ≠ 0) :
    (VerifySig E msg 0).1 = .error "chainID cannot be zero" ∧
    ∀ msg', Sign E msg 0 priv = some msg' →
      (VerifySig E msg' 0).1 = .error "chainID cannot be zero" := by
  have key : ∀ m : MsgEthereumTx, (∀ k, m.from_ = some k → k.signerChainId ≠ 0) →
      (VerifySig E m 0).1 = .error "chainID cannot be zero" := by
    intro m hm
    rw [VerifySig_miss E m 0 hm, verifySigCompute_zero]
  refine ⟨key msg hcache, fun msg' hs => key msg' ?_⟩
  intro k hk
  rw [Sign_from_eq E msg 0 priv msg' hs] at hk
  exact hcache k hk

/-- C6: on a cache miss with chain id c > 0, `VerifySig` returns the
invalid-signature error whenever V' = V - 2c - 8 does not fit in one byte
or the canonical low-S / range validation fails; in particular every
high-S signature is rejected. -/
theorem invalid_signature_refused (E : ECDSA) (msg : MsgEthereumTx) (c : Nat)
    (hcache : ∀ k, msg.from_ = some k → k.signerChainId ≠ c) (hc : 0 < c) :
    (256 ≤ ((fromBE msg.Data.V : Int) - 2 * (c : Int) - 8).natAbs →
      (VerifySig E msg c).1 = .error "invalid signature") ∧
    (validateSignatureValues (recByte ((fromBE msg.Data.V : Int) - 2 * (c : Int) - 8))
        (fromBE msg.Data.R) (fromBE msg.Data.S) true = false →
      (VerifySig E msg c).1 = .error "invalid signature") ∧
    (halfN < fromBE msg.Data.S → (VerifySig E msg c).1 = .error "invalid signature") := by
  have main : (256 ≤ ((fromBE msg.Data.V : Int) - 2 * (c : Int) - 8).natAbs ∨
      validateSignatureValues (recByte ((fromBE msg.Data.V : Int) - 2 * (c : Int) - 8))
        (fromBE msg.Data.R) (fromBE msg.Data.S) true = false) →
      (VerifySig E msg c).1 = .error "invalid signature" := by
    intro hor
    rw [VerifySig_miss E msg c hcache]
    simp only [verifySigCompute]
    rw [if_neg (by omega : ¬ c = 0), recoverEthSig_invalid E _ _ _ _ hor]
  exact ⟨fun h => main (Or.inl h), fun h => main (Or.inr h),
    fun h => main (Or.inr (validate_false_of_highS _ _ _ h))⟩

/-- C7: `RLPSignBytes(chainId)` is the keccak hash of the RLP encoding of
exactly the ordered 9-tuple (nonce, gasPrice, gasLimit, recipient, amount,
payload, chainId, 0, 0), and it depends only on the transaction fields and
the chain id, never on the cache state, so repeated calls agree. -/
theorem signing_payload_spec (E : ECDSA) (d : TxData) (c : Nat)
    (s₁ s₂ : Option Nat) (h₁ h₂ : EthHash) (f₁ f₂ : Option SigCache) :
    RLPSignBytes E ⟨d, s₁, h₁, f₁⟩ c = E.keccak (encodeFlatList (signingPayloadSpec d c)) ∧
    RLPSignBytes E ⟨d, s₁, h₁, f₁⟩ c = RLPSignBytes E ⟨d, s₂, h₂, f₂⟩ c :=
  ⟨rfl, rfl⟩

/-- C8: the wire encoding round-trips exactly on well-formed data, at both
the `TxData` and the message level, and decoding rejects an input whose
nonce slot carries a leading zero byte. -/
theorem rlp_roundtrip (msg : MsgEthereumTx) (h : WFTx msg.Data) :
    decodeTxData (EncodeRLP msg) = some msg.Data ∧
    (DecodeRLP msg (EncodeRLP msg)).map MsgEthereumTx.Data = some msg.Data ∧
    decodeTxData badNonceRLP = none := by
  have hrt := decodeTxData_encodeTxData msg.Data h
  refine ⟨hrt, ?_, by rfl⟩
  simp [DecodeRLP, EncodeRLP, hrt]

/-- C9: a second `VerifySig` with the same chain id answers from the cache
with the identical address, independent of the recovery primitive; a later
call with a different chain id ignores the cache and computes exactly what
a cache-free verification would. -/
theorem verify_cache_correct (E E' : ECDSA) (msg : MsgEthereumTx) (c c' : Nat)
    (addr : List Nat) (h : (VerifySig E msg c).1 = .ok addr) (hne : c' ≠ c) :
    (VerifySig E' (VerifySig E msg c).2 c).1 = .ok addr ∧
    (VerifySig E (VerifySig E msg c).2 c').1 =
      (VerifySig E { msg with from_ := none } c').1 := by
  obtain ⟨b, hfrom, hbt, hdata⟩ := VerifySig_ok_after E msg c addr h
  constructor
  · rw [VerifySig_hit E' _ c ⟨c, b⟩ hfrom rfl, hbt]
  · have hmiss : VerifySig E ((VerifySig E msg c).2) c' =
        verifySigCompute E ((VerifySig E msg c).2) c' := by
      apply VerifySig_miss
      intro k hk
      rw [hfrom] at hk
      obtain rfl := Option.some.inj hk
      exact Ne.symm hne
    rw [hmiss]
    have hr : VerifySig E { msg with from_ := none } c' =
        verifySigCompute E { msg with from_ := none } c' := by
      simp [VerifySig]
    rw [hr]
    exact verifySigCompute_fst_congr E _ _ c' (by rw [hdata])

/-- C10: for V below 35 (other than 27/28) that fits in 64 bits,
`deriveChainID` returns the uint64-wraparound value (V - 35 + 2^64) / 2, an
enormous positive chain id (e.g. on an unsigned transaction with empty V),
rather than an error, zero, or a negative value. -/
theorem derive_chain_id_wraparound (v : Nat) (h64 : v < 2 ^ 64) (h35 : v < 35)
    (h27 : v ≠ 27) (h28 : v ≠ 28) :
    deriveChainID v = (v + 2 ^ 64 - 35) / 2 ∧ 2 ^ 62 < deriveChainID v ∧
      ChainID msg0 = (2 ^ 64 - 35) / 2 := by
  have he : deriveChainID v = (v + 2 ^ 64 - 35) / 2 := by
    rw [deriveChainID, if_pos h64, if_neg (by omega), Nat.mod_eq_of_lt (by omega)]
    omega
  refine ⟨he, ?_, by rfl⟩
  rw [he]; omega

-- Witness theorems. ------------------------------------------------------

/-- C1 witness at a concrete keypair, chain id 1 and transaction. -/
theorem sign_then_verify_recovers_witness :
    (VerifySig E0 msgSigned1 1).1 = .ok (addressOfPriv E0 0) ∧
      (addressOfPriv E0 0).length = 20 :=
  sign_then_verify_recovers E0 msg0 msgSigned1 1 0 goodKeypair_E0 (by decide) rfl rfl

/-- C4 witness at chain id 1. -/
theorem chain_id_roundtrip_witness :
    deriveChainID 27 = 0 ∧ deriveChainID 28 = 0 ∧ ChainID msgSigned1 = 1 :=
  chain_id_roundtrip E0 msg0 msgSigned1 1 0 goodKeypair_E0 (Or.inr (Or.inl rfl)) rfl

/-- C5 witness: a fresh transaction signed with chain id 0 is refused. -/
theorem zero_chain_id_refused_witness :
    (VerifySig E0 msg0 0).1 = .error "chainID cannot be zero" ∧
      (VerifySig E0 ((Sign E0 msg0 0 0).getD msg0) 0).1 =
        .error "chainID cannot be zero" := by
  have h := zero_chain_id_refused E0 msg0 0 (fun k hk => Option.noConfusion hk)
  exact ⟨h.1, h.2 _ rfl⟩

/-- C6 witness: a concrete high-S signature is rejected. -/
theorem invalid_signature_refused_witness :
    halfN < fromBE msgHighS.Data.S ∧
      (VerifySig E0 msgHighS 1).1 = .error "invalid signature" :=
  ⟨by decide,
    (invalid_signature_refused E0 msgHighS 1 (fun k hk => Option.noConfusion hk)
      (by decide)).2.2 (by decide)⟩

/-- C8 witness at a concrete transaction. -/
theorem rlp_roundtrip_witness :
    WFTx msg0.Data ∧
      (decodeTxData (EncodeRLP msg0) = some msg0.Data ∧
        (DecodeRLP msg0 (EncodeRLP msg0)).map MsgEthereumTx.Data = some msg0.Data ∧
        decodeTxData badNonceRLP = none) :=
  ⟨by decide, rlp_roundtrip msg0 (by decide)⟩

/-- C9 witness at a concrete cached transaction, chain ids 1 and 2. -/
theorem verify_cache_correct_witness :
    (VerifySig E0 (VerifySig E0 msgCached 1).2 1).1 = .ok (List.replicate 20 7) ∧
    (VerifySig E0 (VerifySig E0 msgCached 1).2 2).1 =
      (VerifySig E0 { msgCached with from_ := none } 2).1 :=
  verify_cache_correct E0 E0 msgCached 1 2 (List.replicate 20 7) rfl (by decide)

/-- C10 witness at V = 0. -/
theorem derive_chain_id_wraparound_witness :
    deriveChainID 0 = (0 + 2 ^ 64 - 35) / 2 ∧ 2 ^ 62 < deriveChainID 0 ∧
      ChainID msg0 = (2 ^ 64 - 35) / 2 :=
  derive_chain_id_wraparound 0 (by decide) (by decide) (by decide) (by decide)

end Ethermint
